import Mathlib

/-!
Verification of the `better-as` numeric-conversion library.

This file gives a shallow embedding of the conversion operations of the
`better-as` crate (files `src/number.rs`, `src/checked_cast.rs`,
`src/wrapping_cast.rs`, `src/extending_cast.rs`, `src/truncating_cast.rs`)
and proves the testable properties of its specification against it.

Modelling conventions:
* A fixed-width machine-integer type is a pair of a bit width and a
  signedness flag; its values are the integers between its minimum and
  maximum representable values.
* The Rust `as` cast between integer types is modelled by `rustAsCast`:
  reduction of the two's-complement bit pattern modulo `2 ^ width`,
  reinterpreted under the destination's signedness.
* The platform pointer width is a parameter `pw`; the `#[cfg]` guard of
  `number.rs` restricts it to 16, 32 or 64.
* Floating-point values are modelled exactly: `Fp` is NaN, a signed
  infinity, or a finite value given by its exact rational value.  Every
  comparison and truncation test the crate performs on floats is exact on
  these rational values (the integer bounds involved, `u8/u16/i8/i16`
  and `f32::MIN/MAX`, are all exactly representable in `f32` and `f64`),
  so the embedding is faithful.
-/

/-- A machine integer type: bit width plus signedness.
Mirrors the set of Rust integer types used by `number.rs`. -/
structure IntTy where
  width : Nat
  signed : Bool
deriving DecidableEq, Repr

def u8 : IntTy := ⟨8, false⟩

def u16 : IntTy := ⟨16, false⟩

def u32 : IntTy := ⟨32, false⟩

def u64 : IntTy := ⟨64, false⟩

def u128 : IntTy := ⟨128, false⟩

def i8 : IntTy := ⟨8, true⟩

def i16 : IntTy := ⟨16, true⟩

def i32 : IntTy := ⟨32, true⟩

def i64 : IntTy := ⟨64, true⟩

def i128 : IntTy := ⟨128, true⟩

/-- The `usize` type: the platform-width unsigned type; `pw` is the target pointer
width selected at build time (`target_pointer_width`). -/
def usize (pw : Nat) : IntTy := ⟨pw, false⟩

/-- The `isize` type: the platform-width signed type. -/
def isize (pw : Nat) : IntTy := ⟨pw, true⟩

/-- The integer `2 ^ w`, computed through `Nat.pow` (so that concrete
instances evaluate fast). -/
def pow2 (w : Nat) : Int := (Nat.pow 2 w : Nat)

theorem pow2_eq (w : Nat) : pow2 w = 2 ^ w := by
  simp [pow2]

/-- The minimum `T::MIN` of a machine-integer type, as an integer. -/
def minVal (t : IntTy) : Int := if t.signed then -pow2 (t.width - 1) else 0

/-- The maximum `T::MAX` of a machine-integer type, as an integer. -/
def maxVal (t : IntTy) : Int :=
  if t.signed then pow2 (t.width - 1) - 1 else pow2 t.width - 1

/-- The values representable in type `t`. -/
def inRange (t : IntTy) (v : Int) : Prop := minVal t ≤ v ∧ v ≤ maxVal t

instance (t : IntTy) (v : Int) : Decidable (inRange t v) := by
  unfold inRange; infer_instance

/-- Rust `as` cast between integer types (`self as $rhs`): the value's
two's-complement bit pattern reduced to `d.width` bits and reinterpreted
under `d`'s signedness. -/
def rustAsCast (d : IntTy) (v : Int) : Int :=
  if d.signed then
    (if pow2 (d.width - 1) ≤ v % pow2 d.width then v % pow2 d.width - pow2 d.width
     else v % pow2 d.width)
  else v % pow2 d.width

/-- The check rule attached to a `checked_cast!` table row: the four arms
of the `check!` macro in `number.rs`. -/
inductive CheckKind
  | upper
  | lower
  | both
  | infallible
deriving DecidableEq, Repr

/-- The error enum of `number.rs` (`NumCastError`, five variants). -/
inductive NumCastError
  | Overflow
  | Underflow
  | Infinite
  | NaN
  | Fractional
deriving DecidableEq, Repr, Fintype

namespace checked_cast

/-- The error enum of the older `checked_cast.rs` module — the one
re-exported at the crate root by `lib.rs` (`pub use
self::checked_cast::{CheckedCast, NumCastError}`).  It has only four
variants: there is no `Fractional`. -/
inductive NumCastError
  | Infinite
  | NaN
  | Overflow
  | Underflow
deriving DecidableEq, Repr, Fintype

end checked_cast

/-- The `Infallible` error type (`core::convert::Infallible`) used by the
infallible rows of the `checked_cast!` matrix: an enum with no variants. -/
inductive Infallible

/-- The fallible arms of the `checked_cast!` macro of `number.rs`, merged
over the rule attached to the table row.  `upper` compares against
`<$rhs>::MAX as Self`, `lower` against `<$rhs>::MIN as Self`, `both` does
upper first and then lower, `infallible` checks nothing.  (The source
gives the infallible arm the error type `Infallible` instead of
`NumCastError`; that typing is modelled by `checked_cast_infallible`
below.) -/
def checkedCastInt (S D : IntTy) (r : CheckKind) (v : Int) :
    Except NumCastError Int :=
  match r with
  | .upper =>
      if rustAsCast S (maxVal D) < v then .error .Overflow
      else .ok (rustAsCast D v)
  | .lower =>
      if v < rustAsCast S (minVal D) then .error .Underflow
      else .ok (rustAsCast D v)
  | .both =>
      if rustAsCast S (maxVal D) < v then .error .Overflow
      else if v < rustAsCast S (minVal D) then .error .Underflow
      else .ok (rustAsCast D v)
  | .infallible => .ok (rustAsCast D v)

/-- The infallible arm of `checked_cast!` with its actual error type:
`type Error = Infallible; Ok(self as $rhs)`. -/
def checked_cast_infallible (D : IntTy) (v : Int) : Except Infallible Int :=
  .ok (rustAsCast D v)

section RustAsCastLemmas

theorem two_pow_pos (w : Nat) : (0 : Int) < 2 ^ w := by positivity

theorem two_pow_split {w : Nat} (h : 0 < w) :
    (2 : Int) ^ w = 2 ^ (w - 1) + 2 ^ (w - 1) := by
  conv_lhs => rw [← Nat.sub_add_cancel h]
  rw [pow_succ]
  ring

/-- An in-range value is unchanged by the `as` cast into its own type. -/
theorem rustAsCast_eq_self {d : IntTy} {v : Int} (hw : 0 < d.width)
    (h1 : minVal d ≤ v) (h2 : v ≤ maxVal d) : rustAsCast d v = v := by
  obtain ⟨w, s⟩ := d
  dsimp only at hw h1 h2 ⊢
  cases s with
  | false =>
      simp only [minVal, maxVal, pow2_eq] at h1 h2
      simp only [rustAsCast, pow2_eq]
      norm_num at h1 h2 ⊢
      exact Int.emod_eq_of_lt h1 (by omega)
  | true =>
      simp only [minVal, maxVal, pow2_eq] at h1 h2
      simp only [rustAsCast, pow2_eq]
      norm_num at h1 h2 ⊢
      have hsplit := two_pow_split (w := w) hw
      have hp := two_pow_pos (w - 1)
      rcases le_or_lt 0 v with hv | hv
      · have hm : v % 2 ^ w = v := Int.emod_eq_of_lt hv (by omega)
        rw [hm, if_neg (by omega)]
      · have hm : v % 2 ^ w = v + 2 ^ w := by
          have h3 : (v + 2 ^ w) % 2 ^ w = v % 2 ^ w := by
            have h5 := Int.add_mul_emod_self_left (a := v) (b := 2 ^ w) (c := 1)
            rwa [mul_one] at h5
          have h4 : (v + 2 ^ w) % 2 ^ w = v + 2 ^ w :=
            Int.emod_eq_of_lt (by omega) (by omega)
          omega
        rw [hm, if_pos (by omega)]
        omega

/-- The `as` cast preserves the low `d.width` bits. -/
theorem rustAsCast_emod (d : IntTy) (v : Int) :
    rustAsCast d v % 2 ^ d.width = v % 2 ^ d.width := by
  unfold rustAsCast
  simp only [pow2_eq]
  have hmm : v % 2 ^ d.width % 2 ^ d.width = v % 2 ^ d.width :=
    Int.emod_emod_of_dvd v dvd_rfl
  split
  · split
    · have h5 := Int.add_mul_emod_self_left
        (a := v % 2 ^ d.width) (b := (2 : Int) ^ d.width) (c := -1)
      rw [mul_neg_one] at h5
      rw [sub_eq_add_neg, h5, hmm]
    · exact hmm
  · exact hmm

/-- The `as` cast depends only on the low `d.width` bits of its input. -/
theorem rustAsCast_congr {d : IntTy} {v v2 : Int}
    (h : v % 2 ^ d.width = v2 % 2 ^ d.width) :
    rustAsCast d v = rustAsCast d v2 := by
  unfold rustAsCast
  simp only [pow2_eq]
  rw [h]

/-- The result of the `as` cast is representable in the destination. -/
theorem rustAsCast_inRange {d : IntTy} (hw : 0 < d.width) (v : Int) :
    inRange d (rustAsCast d v) := by
  obtain ⟨w, s⟩ := d
  dsimp only at hw ⊢
  have hpos := two_pow_pos w
  have hlo : 0 ≤ v % 2 ^ w := Int.emod_nonneg v (by omega)
  have hhi : v % 2 ^ w < 2 ^ w := Int.emod_lt_of_pos v hpos
  cases s with
  | false =>
      simp only [rustAsCast, inRange, minVal, maxVal, pow2_eq]
      norm_num
      omega
  | true =>
      have hsplit := two_pow_split (w := w) hw
      simp only [rustAsCast, inRange, minVal, maxVal, pow2_eq]
      norm_num
      split <;> omega

end RustAsCastLemmas

/-- Decidable well-formedness of a `checked_cast!` table row: the side
conditions on the source and destination ranges under which the row's
check rule implements the full bound-check contract.  Each condition
also guarantees that the `as`-casts of the destination bounds into the
source type (`<$rhs>::MAX as Self`, `<$rhs>::MIN as Self`) are
value-preserving. -/
def ruleOk (S D : IntTy) (r : CheckKind) : Bool :=
  decide (0 < S.width) && decide (0 < D.width) &&
  decide (minVal D ≤ maxVal D) &&
  match r with
  | .upper =>
      decide (minVal S ≤ maxVal D) && decide (maxVal D ≤ maxVal S) &&
      decide (minVal D ≤ minVal S)
  | .lower =>
      decide (minVal S ≤ minVal D) && decide (minVal D ≤ maxVal S) &&
      decide (maxVal S ≤ maxVal D)
  | .both =>
      decide (minVal S ≤ maxVal D) && decide (maxVal D ≤ maxVal S) &&
      decide (minVal S ≤ minVal D) && decide (minVal D ≤ maxVal S)
  | .infallible =>
      decide (minVal D ≤ minVal S) && decide (maxVal S ≤ maxVal D)

/-- Soundness of a well-formed table row: on every representable source
value the checked conversion succeeds with the value unchanged when it is
representable in the destination, fails with exactly `Overflow` above the
destination maximum, and fails with exactly `Underflow` below the
destination minimum. -/
theorem ruleOk_sound {S D : IntTy} {r : CheckKind}
    (h : ruleOk S D r = true) (v : Int) (hv : inRange S v) :
    ((minVal D ≤ v ∧ v ≤ maxVal D) → checkedCastInt S D r v = .ok v) ∧
    (maxVal D < v → checkedCastInt S D r v = .error .Overflow) ∧
    (v < minVal D → checkedCastInt S D r v = .error .Underflow) := by
  obtain ⟨hv1, hv2⟩ := hv
  cases r with
  | upper =>
      simp only [ruleOk, Bool.and_eq_true, decide_eq_true_eq] at h
      obtain ⟨⟨⟨hws, hwd⟩, hdd⟩, ⟨hmx1, hmx2⟩, hmn⟩ := h
      have hcast : rustAsCast S (maxVal D) = maxVal D :=
        rustAsCast_eq_self hws hmx1 hmx2
      refine ⟨fun hin => ?_, fun hov => ?_, fun hun => ?_⟩
      · simp only [checkedCastInt, hcast, if_neg (not_lt.mpr hin.2)]
        rw [rustAsCast_eq_self hwd hin.1 hin.2]
      · simp only [checkedCastInt, hcast, if_pos hov]
      · exact absurd (lt_of_lt_of_le hun (le_trans hmn hv1)) (lt_irrefl v)
  | lower =>
      simp only [ruleOk, Bool.and_eq_true, decide_eq_true_eq] at h
      obtain ⟨⟨⟨hws, hwd⟩, hdd⟩, ⟨hmn1, hmn2⟩, hmx⟩ := h
      have hcast : rustAsCast S (minVal D) = minVal D :=
        rustAsCast_eq_self hws hmn1 hmn2
      refine ⟨fun hin => ?_, fun hov => ?_, fun hun => ?_⟩
      · simp only [checkedCastInt, hcast, if_neg (not_lt.mpr hin.1)]
        rw [rustAsCast_eq_self hwd hin.1 hin.2]
      · exact absurd (lt_of_le_of_lt (le_trans hv2 hmx) hov) (lt_irrefl v)
      · simp only [checkedCastInt, hcast, if_pos hun]
  | both =>
      simp only [ruleOk, Bool.and_eq_true, decide_eq_true_eq] at h
      obtain ⟨⟨⟨hws, hwd⟩, hdd⟩, ⟨⟨hmx1, hmx2⟩, hmn1⟩, hmn2⟩ := h
      have hcastx : rustAsCast S (maxVal D) = maxVal D :=
        rustAsCast_eq_self hws hmx1 hmx2
      have hcastn : rustAsCast S (minVal D) = minVal D :=
        rustAsCast_eq_self hws hmn1 hmn2
      refine ⟨fun hin => ?_, fun hov => ?_, fun hun => ?_⟩
      · simp only [checkedCastInt, hcastx, hcastn, if_neg (not_lt.mpr hin.2),
          if_neg (not_lt.mpr hin.1)]
        rw [rustAsCast_eq_self hwd hin.1 hin.2]
      · simp only [checkedCastInt, hcastx, if_pos hov]
      · have hno : ¬ maxVal D < v := by
          intro hcon
          exact absurd (lt_trans hun (lt_of_le_of_lt hdd hcon)) (lt_irrefl v)
        simp only [checkedCastInt, hcastx, hcastn, if_neg hno, if_pos hun]
  | infallible =>
      simp only [ruleOk, Bool.and_eq_true, decide_eq_true_eq] at h
      obtain ⟨⟨⟨hws, hwd⟩, hdd⟩, hmn, hmx⟩ := h
      refine ⟨fun hin => ?_, fun hov => ?_, fun hun => ?_⟩
      · simp only [checkedCastInt]
        rw [rustAsCast_eq_self hwd hin.1 hin.2]
      · exact absurd (lt_of_le_of_lt (le_trans hv2 hmx) hov) (lt_irrefl v)
      · exact absurd (lt_of_lt_of_le hun (le_trans hmn hv1)) (lt_irrefl v)

/-- Selection of the check rule of a platform-width-dependent table row by
the target pointer width, mirroring the `#[cfg(target_pointer_width)]`
blocks of the `16:_, 32:_, 64:_` arm of `checked_cast!`. -/
def sel (pw : Nat) (c16 c32 c64 : CheckKind) : CheckKind :=
  if pw = 16 then c16 else if pw = 32 then c32 else c64

/-- Models the `#[cfg(not(any(target_pointer_width = "16" | "32" | "64")))]
compile_error!` guard at the top of `number.rs`: the crate builds exactly
for these pointer widths. -/
def crateCompiles (pw : Nat) : Bool := pw == 16 || pw == 32 || pw == 64

/-- Row of the `checked_cast!` matrix for source `u8` (`number.rs`
lines 201-212; the two float destinations are modelled separately). -/
def rowU8 (pw : Nat) : List (IntTy × IntTy × CheckKind) :=
  [ (u8, u8, .infallible), (u8, u16, .infallible), (u8, u32, .infallible),
    (u8, u64, .infallible), (u8, u128, .infallible), (u8, i8, .upper),
    (u8, i16, .infallible), (u8, i32, .infallible), (u8, i64, .infallible),
    (u8, i128, .infallible), (u8, usize pw, .infallible),
    (u8, isize pw, .infallible) ]

/-- Row for source `u16` (lines 217-228). -/
def rowU16 (pw : Nat) : List (IntTy × IntTy × CheckKind) :=
  [ (u16, u8, .upper), (u16, u16, .infallible), (u16, u32, .infallible),
    (u16, u64, .infallible), (u16, u128, .infallible), (u16, i8, .upper),
    (u16, i16, .upper), (u16, i32, .infallible), (u16, i64, .infallible),
    (u16, i128, .infallible), (u16, usize pw, .infallible),
    (u16, isize pw, sel pw .upper .infallible .infallible) ]

/-- Row for source `u32` (lines 233-244). -/
def rowU32 (pw : Nat) : List (IntTy × IntTy × CheckKind) :=
  [ (u32, u8, .upper), (u32, u16, .upper), (u32, u32, .infallible),
    (u32, u64, .infallible), (u32, u128, .infallible), (u32, i8, .upper),
    (u32, i16, .upper), (u32, i32, .upper), (u32, i64, .infallible),
    (u32, i128, .infallible),
    (u32, usize pw, sel pw .upper .infallible .infallible),
    (u32, isize pw, sel pw .upper .upper .infallible) ]

/-- Row for source `u64` (lines 247-258). -/
def rowU64 (pw : Nat) : List (IntTy × IntTy × CheckKind) :=
  [ (u64, u8, .upper), (u64, u16, .upper), (u64, u32, .upper),
    (u64, u64, .infallible), (u64, u128, .infallible), (u64, i8, .upper),
    (u64, i16, .upper), (u64, i32, .upper), (u64, i64, .upper),
    (u64, i128, .infallible),
    (u64, usize pw, sel pw .upper .upper .infallible),
    (u64, isize pw, .upper) ]

/-- Row for source `u128` (lines 261-272). -/
def rowU128 (pw : Nat) : List (IntTy × IntTy × CheckKind) :=
  [ (u128, u8, .upper), (u128, u16, .upper), (u128, u32, .upper),
    (u128, u64, .upper), (u128, u128, .infallible), (u128, i8, .upper),
    (u128, i16, .upper), (u128, i32, .upper), (u128, i64, .upper),
    (u128, i128, .upper), (u128, usize pw, .upper),
    (u128, isize pw, .upper) ]

/-- Row for source `i8` (lines 275-286). -/
def rowI8 (pw : Nat) : List (IntTy × IntTy × CheckKind) :=
  [ (i8, u8, .lower), (i8, u16, .lower), (i8, u32, .lower),
    (i8, u64, .lower), (i8, u128, .lower), (i8, i8, .infallible),
    (i8, i16, .infallible), (i8, i32, .infallible), (i8, i64, .infallible),
    (i8, i128, .infallible), (i8, usize pw, .lower),
    (i8, isize pw, .infallible) ]

/-- Row for source `i16` (lines 291-302). -/
def rowI16 (pw : Nat) : List (IntTy × IntTy × CheckKind) :=
  [ (i16, u8, .both), (i16, u16, .lower), (i16, u32, .lower),
    (i16, u64, .lower), (i16, u128, .lower), (i16, i8, .both),
    (i16, i16, .infallible), (i16, i32, .infallible), (i16, i64, .infallible),
    (i16, i128, .infallible), (i16, usize pw, .lower),
    (i16, isize pw, .infallible) ]

/-- Row for source `i32` (lines 307-318). -/
def rowI32 (pw : Nat) : List (IntTy × IntTy × CheckKind) :=
  [ (i32, u8, .both), (i32, u16, .both), (i32, u32, .lower),
    (i32, u64, .lower), (i32, u128, .lower), (i32, i8, .both),
    (i32, i16, .both), (i32, i32, .infallible), (i32, i64, .infallible),
    (i32, i128, .infallible),
    (i32, usize pw, sel pw .both .lower .lower),
    (i32, isize pw, sel pw .both .infallible .infallible) ]

/-- Row for source `i64` (lines 321-332). -/
def rowI64 (pw : Nat) : List (IntTy × IntTy × CheckKind) :=
  [ (i64, u8, .both), (i64, u16, .both), (i64, u32, .both),
    (i64, u64, .lower), (i64, u128, .lower), (i64, i8, .both),
    (i64, i16, .both), (i64, i32, .both), (i64, i64, .infallible),
    (i64, i128, .infallible),
    (i64, usize pw, sel pw .both .both .lower),
    (i64, isize pw, sel pw .both .both .infallible) ]

/-- Row for source `i128` (lines 335-346). -/
def rowI128 (pw : Nat) : List (IntTy × IntTy × CheckKind) :=
  [ (i128, u8, .both), (i128, u16, .both), (i128, u32, .both),
    (i128, u64, .both), (i128, u128, .lower), (i128, i8, .both),
    (i128, i16, .both), (i128, i32, .both), (i128, i64, .both),
    (i128, i128, .infallible), (i128, usize pw, .both),
    (i128, isize pw, .both) ]

/-- Row for source `usize` (lines 349-360). -/
def rowUsize (pw : Nat) : List (IntTy × IntTy × CheckKind) :=
  [ (usize pw, u8, .upper),
    (usize pw, u16, sel pw .infallible .upper .upper),
    (usize pw, u32, sel pw .infallible .infallible .upper),
    (usize pw, u64, sel pw .infallible .infallible .infallible),
    (usize pw, u128, sel pw .infallible .infallible .infallible),
    (usize pw, i8, .upper), (usize pw, i16, .upper),
    (usize pw, i32, sel pw .infallible .upper .upper),
    (usize pw, i64, sel pw .infallible .infallible .upper),
    (usize pw, i128, sel pw .infallible .infallible .infallible),
    (usize pw, usize pw, .infallible), (usize pw, isize pw, .upper) ]

/-- Row for source `isize` (lines 363-374). -/
def rowIsize (pw : Nat) : List (IntTy × IntTy × CheckKind) :=
  [ (isize pw, u8, .both),
    (isize pw, u16, sel pw .lower .both .both),
    (isize pw, u32, sel pw .lower .lower .both),
    (isize pw, u64, .lower), (isize pw, u128, .lower),
    (isize pw, i8, .both),
    (isize pw, i16, sel pw .infallible .both .both),
    (isize pw, i32, sel pw .infallible .infallible .both),
    (isize pw, i64, sel pw .infallible .infallible .infallible),
    (isize pw, i128, sel pw .infallible .infallible .infallible),
    (isize pw, usize pw, .lower), (isize pw, isize pw, .infallible) ]

/-- The integer rows of the `checked_cast!` matrix of `number.rs`
(lines 200-374), in source order: every ordered pair of the twelve
integer types together with the check rule the source attaches to it.
The float rows are modelled separately (`checkedCastFloatInt`,
`intToFloatSources`, `checked_cast_f32_f64`, `checked_cast_f64_f32`). -/
def checkedTable (pw : Nat) : List (IntTy × IntTy × CheckKind) :=
  rowU8 pw ++ rowU16 pw ++ rowU32 pw ++ rowU64 pw ++ rowU128 pw ++
  rowI8 pw ++ rowI16 pw ++ rowI32 pw ++ rowI64 pw ++ rowI128 pw ++
  rowUsize pw ++ rowIsize pw

/-- Every row of the 16-bit-target matrix is well formed. -/
theorem tableOk_16 : (checkedTable 16).all (fun e => ruleOk e.1 e.2.1 e.2.2) = true := by
  decide

/-- Every row of the 32-bit-target matrix is well formed. -/
theorem tableOk_32 : (checkedTable 32).all (fun e => ruleOk e.1 e.2.1 e.2.2) = true := by
  decide

/-- Every row of the 64-bit-target matrix is well formed. -/
theorem tableOk_64 : (checkedTable 64).all (fun e => ruleOk e.1 e.2.1 e.2.2) = true := by
  decide

/-- Well-formedness of every matrix row, for each supported target width. -/
theorem tableOk {pw : Nat} (hpw : pw = 16 ∨ pw = 32 ∨ pw = 64)
    {S D : IntTy} {r : CheckKind} (hmem : (S, D, r) ∈ checkedTable pw) :
    ruleOk S D r = true := by
  rcases hpw with rfl | rfl | rfl
  · exact List.all_eq_true.mp tableOk_16 _ hmem
  · exact List.all_eq_true.mp tableOk_32 _ hmem
  · exact List.all_eq_true.mp tableOk_64 _ hmem

/-- The `wrapping_cast!` pairs of `number.rs` (lines 401-412), identical
to the `impl_cast!` pairs of `wrapping_cast.rs`: every same-width
signed/unsigned pair. -/
def wrappingTable (pw : Nat) : List (IntTy × IntTy) :=
  [ (u8, i8), (u16, i16), (u32, i32), (u64, i64), (u128, i128),
    (usize pw, isize pw),
    (i8, u8), (i16, u16), (i32, u32), (i64, u64), (i128, u128),
    (isize pw, usize pw) ]

/-- A wrapping cast (`self as $rhs` for a same-width pair). -/
def wrapping_cast (D : IntTy) (v : Int) : Int := rustAsCast D v

/-- The `impl_cast!` pairs of `extending_cast.rs` (lines 34-58): strict
same-signedness widenings, including `u8 => usize` and `i8 => isize`. -/
def extendingTable (pw : Nat) : List (IntTy × IntTy) :=
  [ (u8, u16), (u8, u32), (u8, u64), (u8, u128), (u8, usize pw),
    (u16, u32), (u16, u64), (u16, u128),
    (u32, u64), (u32, u128), (u64, u128),
    (i8, i16), (i8, i32), (i8, i64), (i8, i128), (i8, isize pw),
    (i16, i32), (i16, i64), (i16, i128),
    (i32, i64), (i32, i128), (i64, i128) ]

/-- An extending cast (`self as $rhs` for a strict widening pair). -/
def extending_cast (D : IntTy) (v : Int) : Int := rustAsCast D v

/-- The `impl_cast!` pairs of `truncating_cast.rs` (lines 34-58): strict
same-signedness narrowings, including `usize => u8` and `isize => i8`. -/
def truncatingTable (pw : Nat) : List (IntTy × IntTy) :=
  [ (u16, u8), (u32, u8), (u32, u16), (u64, u8), (u64, u16), (u64, u32),
    (u128, u8), (u128, u16), (u128, u32), (u128, u64), (usize pw, u8),
    (i16, i8), (i32, i8), (i32, i16), (i64, i8), (i64, i16), (i64, i32),
    (i128, i8), (i128, i16), (i128, i32), (i128, i64), (isize pw, i8) ]

/-- A truncating cast (`self as $rhs` for a strict narrowing pair). -/
def truncating_cast (D : IntTy) (v : Int) : Int := rustAsCast D v

/-- A floating-point value, modelled exactly: NaN, a signed infinity
(`inf true` is negative infinity), or a finite value given by its exact
rational value.  Finite `f32`/`f64` values are rationals, and every test
the crate performs on them (NaN/infinity classification, `trunc`
comparison, comparisons with exactly-representable integer bounds) is
exact on this representation. -/
inductive Fp
  | nan
  | inf (neg : Bool)
  | fin (q : ℚ)
deriving DecidableEq, Repr

/-- Floor of a rational, computed by floor division of numerator by
denominator. -/
def ratFloor (x : ℚ) : Int := x.num.fdiv x.den

/-- Rational truncation toward zero: the value of Rust `Float::trunc`. -/
def ratTrunc (q : ℚ) : Int := if q < 0 then -ratFloor (-q) else ratFloor q

/-- The product `a * 2 ^ t` for a possibly negative exponent, computed on the
numerator/denominator representation (exactly the rational product). -/
def scaleByPow2 (a : ℚ) (t : Int) : ℚ :=
  if 0 ≤ t then mkRat (a.num * ((Nat.pow 2 t.toNat : Nat) : Int)) a.den
  else mkRat a.num (a.den * Nat.pow 2 (-t).toNat)

/-- The largest `e` in `[-200, 200]` with `2 ^ e ≤ a`, for positive `a`
(all finite `f64` magnitudes lie well inside this window).  The filter
condition `2 ^ k * den ≤ num * 2 ^ 200` is `2 ^ (k - 200) ≤ a` cleared of
denominators. -/
def floorLog2Q (a : ℚ) : Int :=
  ((List.range 401).filter
      (fun k => Nat.pow 2 k * a.den ≤ a.num.toNat * Nat.pow 2 200)).foldl
    (fun _ k => (k : Int) - 200) (-200)

/-- Round a rational to the nearest integer, ties to even.  The
fractional part `x - floor x` is compared with `1 / 2` after clearing
denominators: `c = 2 * (num - floor * den)` against `den`. -/
def roundHalfEven (x : ℚ) : Int :=
  let f := ratFloor x
  let c := 2 * (x.num - f * (x.den : Int))
  if c < (x.den : Int) then f
  else if (x.den : Int) < c then f + 1
  else if f % 2 = 0 then f else f + 1

/-- IEEE-754 round-to-nearest-even of a rational to `f32` precision, the
semantics of Rust's `f64 as f32` cast on finite values: the significand
grid step at magnitude `a` is `2 ^ (e - 23)` where `2 ^ e ≤ a < 2 ^ (e+1)`
(clamped below at the subnormal step `2 ^ (-126 - 23)`); values that round
to `2 ^ 128` or beyond overflow to infinity. -/
def roundToF32 (q : ℚ) : Fp :=
  if q = 0 then .fin 0
  else
    let a := if q < 0 then -q else q
    let e := max (floorLog2Q a) (-126)
    let n := roundHalfEven (scaleByPow2 a (23 - e))
    let r := scaleByPow2 ((n : Int) : ℚ) (e - 23)
    if ((Nat.pow 2 128 : Nat) : ℚ) ≤ r then .inf (decide (q < 0))
    else .fin (if q < 0 then -r else r)

/-- Rust `f64 as f32`: NaN stays NaN, infinities keep their sign, finite
values are rounded to nearest-even `f32` (overflowing to infinity). -/
def f64_as_f32 : Fp → Fp
  | .nan => .nan
  | .inf s => .inf s
  | .fin q => roundToF32 q

/-- The constant `f32::MAX` (= `(2 ^ 24 - 1) * 2 ^ 104`), exactly representable in
`f64`, as an exact rational. -/
def f32maxQ : ℚ := ((Nat.pow 2 24 - 1) * Nat.pow 2 104 : Nat)

/-- The constant `f32::MIN` (= `-f32::MAX`). -/
def f32minQ : ℚ := -f32maxQ

/-- The impl `CheckedCast<f32> for f64` from `checked_cast.rs` lines 209-223:
NaN and infinite inputs succeed as `self as f32`; finite inputs below
`f32::MIN as f64` fail with `Underflow`, above `f32::MAX as f64` with
`Overflow`, and otherwise succeed as `self as f32`.  Uses the four-variant
error enum of `checked_cast.rs`. -/
def checked_cast_f64_f32 (v : Fp) : Except checked_cast.NumCastError Fp :=
  match v with
  | .nan => .ok (f64_as_f32 .nan)
  | .inf s => .ok (f64_as_f32 (.inf s))
  | .fin q =>
      if q < f32minQ then .error .Underflow
      else if f32maxQ < q then .error .Overflow
      else .ok (f64_as_f32 (.fin q))

/-- The integer destinations of the `f32 => $rhs` / `f64 => $rhs` rows of
`number.rs` (lines 377-388): `u8`, `u16`, `i8`, `i16`. -/
def floatIntDests : List IntTy := [u8, u16, i8, i16]

/-- The integer sources whose rows of `number.rs` include the infallible
destinations `f32` and `f64` (lines 213-214, 229-230, 287-288, 303-304). -/
def intToFloatSources : List IntTy := [u8, u16, i8, i16]

/-- The `f32 => $rhs` / `f64 => $rhs` arms of `checked_cast!`
(`number.rs` lines 160-198): reject NaN first, then infinities, then
values with a fractional part (`self.trunc().to_bits() != self.to_bits()`,
which on non-NaN floats is value inequality with `trunc`), then run the
`both` bound check against `<$rhs>::MAX/MIN as Self` (exact here, since
the bounds of `u8/u16/i8/i16` are exactly representable in `f32` and
`f64`); only then `Ok(self as $rhs)`. -/
def checkedCastFloatInt (D : IntTy) (v : Fp) : Except NumCastError Int :=
  match v with
  | .nan => .error .NaN
  | .inf _ => .error .Infinite
  | .fin q =>
      if (ratTrunc q : ℚ) ≠ q then .error .Fractional
      else if (maxVal D : ℚ) < q then .error .Overflow
      else if q < (minVal D : ℚ) then .error .Underflow
      else .ok (ratTrunc q)

/-- The infallible integer-to-float rows (`u8/u16/i8/i16 => f32/f64`):
`Ok(self as f32)` / `Ok(self as f64)`, exact because every value of these
sources is exactly representable in both float formats. -/
def checked_cast_int_to_float (v : Int) : Except Infallible Fp :=
  .ok (.fin (v : ℚ))

/-- The row `checked_cast!(f32 => f64: infallible)`: every `f32` value is exactly
an `f64` value, so the widening is the identity on the exact model. -/
def checked_cast_f32_f64 (v : Fp) : Except Infallible Fp := .ok v

deriving instance DecidableEq for Except

/-- A well-formed row has a non-degenerate destination range. -/
theorem ruleOk_min_le_max {S D : IntTy} {r : CheckKind}
    (h : ruleOk S D r = true) : minVal D ≤ maxVal D := by
  cases r <;> simp only [ruleOk, Bool.and_eq_true, decide_eq_true_eq] at h <;>
    exact h.1.2

/-- The range-inclusion conditions of a well-formed infallible row. -/
theorem ruleOk_infallible {S D : IntTy}
    (h : ruleOk S D .infallible = true) :
    0 < D.width ∧ minVal D ≤ minVal S ∧ maxVal S ≤ maxVal D := by
  simp only [ruleOk, Bool.and_eq_true, decide_eq_true_eq] at h
  exact ⟨h.1.1.2, h.2.1, h.2.2⟩

/-- C1: for every bound-checked pair of the checked-conversion matrix and
every representable source value `v`, the conversion succeeds with `v`
unchanged when `D_min ≤ v ≤ D_max`, fails with exactly `Overflow` when
`v > D_max`, fails with exactly `Underflow` when `v < D_min`, and the two
failure conditions are mutually exclusive; concretely, `u16 300 → u8` is
`Overflow`, `i32 -5 → u16` is `Underflow`, `u8 200 → i8` is `Overflow`,
and `i8 -1 → u8` is `Underflow`. -/
theorem checked_bound_trichotomy :
    (∀ pw : Nat, pw = 16 ∨ pw = 32 ∨ pw = 64 →
      ∀ S D : IntTy, ∀ r : CheckKind, (S, D, r) ∈ checkedTable pw →
        r ≠ CheckKind.infallible → ∀ v : Int, inRange S v →
          ((minVal D ≤ v ∧ v ≤ maxVal D) → checkedCastInt S D r v = .ok v) ∧
          (maxVal D < v → checkedCastInt S D r v = .error .Overflow) ∧
          (v < minVal D → checkedCastInt S D r v = .error .Underflow) ∧
          ¬(maxVal D < v ∧ v < minVal D)) ∧
    (u16, u8, CheckKind.upper) ∈ checkedTable 64 ∧
    checkedCastInt u16 u8 .upper 300 = .error .Overflow ∧
    (i32, u16, CheckKind.both) ∈ checkedTable 64 ∧
    checkedCastInt i32 u16 .both (-5) = .error .Underflow ∧
    (u8, i8, CheckKind.upper) ∈ checkedTable 64 ∧
    checkedCastInt u8 i8 .upper 200 = .error .Overflow ∧
    (i8, u8, CheckKind.lower) ∈ checkedTable 64 ∧
    checkedCastInt i8 u8 .lower (-1) = .error .Underflow := by
  refine ⟨?_, by decide, by decide, by decide, by decide, by decide,
    by decide, by decide, by decide⟩
  intro pw hpw S D r hmem _ v hv
  have hok := tableOk hpw hmem
  have h := ruleOk_sound hok v hv
  refine ⟨h.1, h.2.1, h.2.2, ?_⟩
  rintro ⟨h1, h2⟩
  have h3 := ruleOk_min_le_max hok
  omega

/-- Witness for C1 at the pair `u32 → u16` on a 64-bit target with the
out-of-range value 100000. -/
theorem checked_bound_trichotomy_witness :
    checkedCastInt u32 u16 .upper 100000 = .error .Overflow :=
  (checked_bound_trichotomy.1 64 (Or.inr (Or.inr rfl)) u32 u16 .upper
    (by decide) (by decide) 100000 (by decide)).2.1 (by decide)

/-- C2 counterexample: the error type re-exported at the crate root
(`lib.rs` line 26 re-exports `checked_cast::NumCastError`) has exactly
four values, while the five-way taxonomy (with `Fractional`) has five, so
the five-way taxonomy is not the taxonomy of the exposed error type. -/
theorem exposed_error_enum_has_four_values :
    Fintype.card checked_cast.NumCastError = 4 ∧
    Fintype.card NumCastError = 5 := by
  constructor <;> rfl

/-- C2 (amended): the five-way taxonomy `Overflow`, `Underflow`,
`Infinite`, `NaN`, `Fractional` is exhaustive and mutually exclusive for
the error enum of `number.rs`; the enum re-exported at the crate root
from `checked_cast.rs` carries only the four of them other than
`Fractional`. -/
theorem error_taxonomy_five_way :
    (∀ e : NumCastError,
      e = .Overflow ∨ e = .Underflow ∨ e = .Infinite ∨ e = .NaN ∨
        e = .Fractional) ∧
    ([NumCastError.Overflow, .Underflow, .Infinite, .NaN,
        .Fractional].Nodup) ∧
    (∀ e : checked_cast.NumCastError,
      e = .Overflow ∨ e = .Underflow ∨ e = .Infinite ∨ e = .NaN) := by
  refine ⟨fun e => ?_, by decide, fun e => ?_⟩ <;> cases e <;> simp

/-- C3: the float-to-integer checked conversions test, in order, NaN
(rejected as `NaN`), infinity (rejected as `Infinite`), a non-zero
fractional part (rejected as `Fractional`, never truncated), and then the
both-bounds range check; only if all pass does the conversion succeed
with the (integral) value.  Concretely NaN gives `NaN`, `+∞` gives
`Infinite`, `2.5 → u8` gives `Fractional`, and `2.0 → u8` succeeds
with 2. -/
theorem float_to_int_check_order :
    (∀ D, D ∈ floatIntDests → checkedCastFloatInt D .nan = .error .NaN) ∧
    (∀ D, D ∈ floatIntDests → ∀ s,
      checkedCastFloatInt D (.inf s) = .error .Infinite) ∧
    (∀ D, D ∈ floatIntDests → ∀ q : ℚ, (ratTrunc q : ℚ) ≠ q →
      checkedCastFloatInt D (.fin q) = .error .Fractional) ∧
    (∀ D, D ∈ floatIntDests → ∀ q : ℚ, (ratTrunc q : ℚ) = q →
      (maxVal D : ℚ) < q → checkedCastFloatInt D (.fin q) = .error .Overflow) ∧
    (∀ D, D ∈ floatIntDests → ∀ q : ℚ, (ratTrunc q : ℚ) = q →
      ¬((maxVal D : ℚ) < q) → q < (minVal D : ℚ) →
      checkedCastFloatInt D (.fin q) = .error .Underflow) ∧
    (∀ D, D ∈ floatIntDests → ∀ q : ℚ, (ratTrunc q : ℚ) = q →
      (minVal D : ℚ) ≤ q → q ≤ (maxVal D : ℚ) →
      checkedCastFloatInt D (.fin q) = .ok (ratTrunc q)) ∧
    checkedCastFloatInt u8 (.fin (mkRat 5 2)) = .error .Fractional ∧
    checkedCastFloatInt u8 (.fin 2) = .ok 2 := by
  refine ⟨fun D _ => rfl, fun D _ s => rfl, fun D _ q hfrac => ?_,
    fun D _ q hint hov => ?_, fun D _ q hint hnov hun => ?_,
    fun D _ q hint h1 h2 => ?_, by decide, by decide⟩
  · simp only [checkedCastFloatInt]
    rw [if_pos hfrac]
  · simp only [checkedCastFloatInt]
    rw [if_neg (not_ne_iff.mpr hint), if_pos hov]
  · simp only [checkedCastFloatInt]
    rw [if_neg (not_ne_iff.mpr hint), if_neg hnov, if_pos hun]
  · simp only [checkedCastFloatInt]
    rw [if_neg (not_ne_iff.mpr hint), if_neg (not_lt.mpr h2),
      if_neg (not_lt.mpr h1)]

/-- Witness for C3: the in-range integral value `-3.0` converts to `i16`
successfully. -/
theorem float_to_int_check_order_witness :
    checkedCastFloatInt i16 (.fin (-3)) = .ok (ratTrunc (-3)) :=
  float_to_int_check_order.2.2.2.2.2.1 i16 (by decide) (-3) (by decide)
    (by decide) (by decide)

/-- C4: the check rule of every platform-width-dependent pair is selected
by the compiled target's pointer width; on a 32-bit target `isize → i16`
is a both-bounds check and rejects 50000 (with `Overflow`), and every
rule so selected is sound for its width; a pointer width other than
16/32/64 fails the `compile_error!` guard (build-time, not runtime). -/
theorem platform_width_rules :
    (∀ pw : Nat, crateCompiles pw = true ↔ (pw = 16 ∨ pw = 32 ∨ pw = 64)) ∧
    (isize 32, i16, CheckKind.both) ∈ checkedTable 32 ∧
    checkedCastInt (isize 32) i16 .both 50000 = .error .Overflow ∧
    (∀ pw : Nat, pw = 16 ∨ pw = 32 ∨ pw = 64 →
      ∀ S D : IntTy, ∀ r : CheckKind, (S, D, r) ∈ checkedTable pw →
        ∀ v : Int, inRange S v →
          ((minVal D ≤ v ∧ v ≤ maxVal D) → checkedCastInt S D r v = .ok v) ∧
          (maxVal D < v → checkedCastInt S D r v = .error .Overflow) ∧
          (v < minVal D → checkedCastInt S D r v = .error .Underflow)) := by
  refine ⟨fun pw => ?_, by decide, by decide,
    fun pw hpw S D r hmem v hv => ruleOk_sound (tableOk hpw hmem) v hv⟩
  simp [crateCompiles, or_assoc]

/-- Witness for C4: on a 16-bit target `u16 → isize` is an upper check
and rejects 40000. -/
theorem platform_width_rules_witness :
    crateCompiles 16 = true ∧
    checkedCastInt u16 (isize 16) .upper 40000 = .error .Overflow :=
  ⟨(platform_width_rules.1 16).mpr (Or.inl rfl),
   (platform_width_rules.2.2.2 16 (Or.inl rfl) u16 (isize 16) .upper
     (by decide) 40000 (by decide)).2.1 (by decide)⟩

set_option maxRecDepth 40000 in
/-- C5 counterexample: the checked `f64 → f32` conversion succeeds on the
`f64` value nearest 0.1 (= 3602879701896397 / 2^55) but returns the
strictly larger rounded `f32` value 13421773 / 2^27, so not every
successful checked conversion is value-preserving. -/
theorem checked_f64_f32_rounds :
    checked_cast_f64_f32 (.fin (mkRat 3602879701896397 36028797018963968)) =
      .ok (.fin (mkRat 13421773 134217728)) ∧
    mkRat 3602879701896397 36028797018963968 < mkRat 13421773 134217728 := by
  constructor <;> decide

/-- C5 (amended): every checked conversion other than the `f64 → f32`
narrowing is value-preserving on success — for the integer matrix, the
float-to-integer conversions, the integer-to-float conversions and the
`f32 → f64` widening, a successful result carries exactly the source
value; the `f64 → f32` narrowing alone may round (see
the counterexample above). -/
theorem checked_success_value_preserving :
    (∀ pw : Nat, pw = 16 ∨ pw = 32 ∨ pw = 64 →
      ∀ S D : IntTy, ∀ r : CheckKind, (S, D, r) ∈ checkedTable pw →
        ∀ v w : Int, inRange S v → checkedCastInt S D r v = .ok w → w = v) ∧
    (∀ D, D ∈ floatIntDests → ∀ (v : Fp) (n : Int),
      checkedCastFloatInt D v = .ok n → v = .fin (n : ℚ)) ∧
    (∀ S, S ∈ intToFloatSources → ∀ (v : Int) (w : Fp),
      checked_cast_int_to_float v = .ok w → w = .fin (v : ℚ)) ∧
    (∀ v w : Fp, checked_cast_f32_f64 v = .ok w → w = v) := by
  refine ⟨?_, ?_, fun S _ v w heq => by injection heq with h; exact h.symm,
    fun v w heq => by injection heq with h; exact h.symm⟩
  · intro pw hpw S D r hmem v w hv heq
    have h := ruleOk_sound (tableOk hpw hmem) v hv
    rcases le_or_lt v (maxVal D) with h1 | h1
    · rcases le_or_lt (minVal D) v with h2 | h2
      · have h3 := h.1 ⟨h2, h1⟩
        rw [h3] at heq
        exact (Except.ok.inj heq).symm
      · rw [h.2.2 h2] at heq
        exact Except.noConfusion heq
    · rw [h.2.1 h1] at heq
      exact Except.noConfusion heq
  · intro D _ v n heq
    cases v with
    | nan => exact Except.noConfusion heq
    | inf s => exact Except.noConfusion heq
    | fin q =>
        simp only [checkedCastFloatInt] at heq
        by_cases hfrac : (ratTrunc q : ℚ) ≠ q
        · rw [if_pos hfrac] at heq
          exact Except.noConfusion heq
        · rw [if_neg hfrac] at heq
          by_cases hov : (maxVal D : ℚ) < q
          · rw [if_pos hov] at heq
            exact Except.noConfusion heq
          · rw [if_neg hov] at heq
            by_cases hun : q < (minVal D : ℚ)
            · rw [if_pos hun] at heq
              exact Except.noConfusion heq
            · rw [if_neg hun] at heq
              rw [← Except.ok.inj heq, not_ne_iff.mp hfrac]

/-- Witness for C5 at the pair `u16 → u8` on a 64-bit target with the
in-range value 77. -/
theorem checked_success_value_preserving_witness :
    checkedCastInt u16 u8 .upper 77 = .ok 77 ∧ (77 : Int) = 77 :=
  ⟨by decide,
   checked_success_value_preserving.1 64 (Or.inr (Or.inr rfl)) u16 u8 .upper
     (by decide) 77 77 (by decide) (by decide)⟩

/-- C6: every infallible-classified pair of the matrix converts every
representable source value to itself (so reinterpreting the result back
in the source type is the identity), the integer-to-float and
`f32 → f64` infallible conversions are likewise value-preserving, and the
error type of these conversions, `Infallible`, has no constructible
value. -/
theorem infallible_pairs_sound :
    (∀ pw : Nat, pw = 16 ∨ pw = 32 ∨ pw = 64 →
      ∀ S D : IntTy, (S, D, CheckKind.infallible) ∈ checkedTable pw →
        ∀ v : Int, inRange S v →
          checked_cast_infallible D v = .ok v ∧ inRange D v) ∧
    (∀ S, S ∈ intToFloatSources → ∀ v : Int, inRange S v →
      checked_cast_int_to_float v = .ok (.fin (v : ℚ))) ∧
    (∀ v : Fp, checked_cast_f32_f64 v = .ok v) ∧
    (∀ e : Infallible, False) := by
  refine ⟨?_, fun S _ v _ => rfl, fun v => rfl, fun e => nomatch e⟩

  intro pw hpw S D hmem v hv
  have hok := tableOk hpw hmem
  obtain ⟨hwd, hmn, hmx⟩ := ruleOk_infallible hok
  have h1 : minVal D ≤ v := le_trans hmn hv.1
  have h2 : v ≤ maxVal D := le_trans hv.2 hmx
  constructor
  · simp only [checked_cast_infallible]
    rw [rustAsCast_eq_self hwd h1 h2]
  · exact ⟨h1, h2⟩

/-- Witness for C6 at the pair `u8 → u16` on a 64-bit target with the
value 200. -/
theorem infallible_pairs_sound_witness :
    checked_cast_infallible u16 200 = .ok 200 ∧ inRange u16 200 :=
  infallible_pairs_sound.1 64 (Or.inr (Or.inr rfl)) u8 u16 (by decide)
    200 (by decide)

/-- Applying the wrapping cast into `D` and then into the same-width `S`
recovers every representable value of `S`; a single cast lands in `D`'s
range and preserves the low bits (the bit pattern). -/
theorem wrap_wrap {S D : IntTy} (hw : S.width = D.width) (hS : 0 < S.width)
    (hD : 0 < D.width) (v : Int) (hv : inRange S v) :
    wrapping_cast S (wrapping_cast D v) = v ∧
    inRange D (wrapping_cast D v) ∧
    wrapping_cast D v % 2 ^ D.width = v % 2 ^ D.width := by
  have hemod := rustAsCast_emod D v
  refine ⟨?_, rustAsCast_inRange hD v, hemod⟩
  have hcongr : rustAsCast S (rustAsCast D v) = rustAsCast S v := by
    apply rustAsCast_congr
    rw [hw]
    exact hemod
  simp only [wrapping_cast]
  rw [hcongr, rustAsCast_eq_self hS hv.1 hv.2]

/-- C7: every wrapping-cast pair joins two types of equal width and
opposite signedness, its reverse pair is also a wrapping-cast pair, and
for every representable source value the double cast is the identity
while the single cast always succeeds, stays in the destination's range
and preserves the two's-complement bit pattern (the low
`width`-many bits). -/
theorem wrapping_involution :
    ∀ pw : Nat, pw = 16 ∨ pw = 32 ∨ pw = 64 →
      ∀ S D : IntTy, (S, D) ∈ wrappingTable pw →
        S.width = D.width ∧ D.signed = !S.signed ∧
        (D, S) ∈ wrappingTable pw ∧
        ∀ v : Int, inRange S v →
          wrapping_cast S (wrapping_cast D v) = v ∧
          inRange D (wrapping_cast D v) ∧
          wrapping_cast D v % 2 ^ D.width = v % 2 ^ D.width := by
  intro pw hpw S D hmem
  rcases hpw with rfl | rfl | rfl <;> fin_cases hmem <;>
    exact ⟨by decide, by decide, by decide,
      fun v hv => wrap_wrap (by decide) (by decide) (by decide) v hv⟩

/-- Witness for C7 at the pair `i8 → u8` on a 64-bit target with the
value 200 of `u8`. -/
theorem wrapping_involution_witness :
    wrapping_cast u8 (wrapping_cast i8 200) = 200 ∧
    inRange i8 (wrapping_cast i8 200) ∧
    wrapping_cast i8 200 % 2 ^ i8.width = 200 % 2 ^ i8.width :=
  (wrapping_involution 64 (Or.inr (Or.inr rfl)) u8 i8 (by decide)).2.2.2
    200 (by decide)

/-- Truncating after extending recovers the original value, given the
range inclusion of the widening pair. -/
theorem ext_trunc {S D : IntTy} (hS : 0 < S.width) (hD : 0 < D.width)
    (hmn : minVal D ≤ minVal S) (hmx : maxVal S ≤ maxVal D) (v : Int)
    (hv : inRange S v) : truncating_cast S (extending_cast D v) = v := by
  simp only [truncating_cast, extending_cast]
  rw [rustAsCast_eq_self hD (le_trans hmn hv.1) (le_trans hv.2 hmx),
    rustAsCast_eq_self hS hv.1 hv.2]

/-- C8: for every extending-cast pair `(S, D)` the reverse truncating
pair is defined, and truncating back after extending is the identity on
every representable value of `S`. -/
theorem extend_then_truncate :
    ∀ pw : Nat, pw = 16 ∨ pw = 32 ∨ pw = 64 →
      ∀ S D : IntTy, (S, D) ∈ extendingTable pw →
        (D, S) ∈ truncatingTable pw ∧
        ∀ v : Int, inRange S v → truncating_cast S (extending_cast D v) = v := by
  intro pw hpw S D hmem
  rcases hpw with rfl | rfl | rfl <;> fin_cases hmem <;>
    exact ⟨by decide,
      fun v hv => ext_trunc (by decide) (by decide) (by decide) (by decide) v hv⟩

/-- Witness for C8 at the pair `u8 → u64` with the value 250. -/
theorem extend_then_truncate_witness :
    truncating_cast u8 (extending_cast u64 250) = 250 :=
  (extend_then_truncate 64 (Or.inr (Or.inr rfl)) u8 u64 (by decide)).2
    250 (by decide)

/-- C9: every truncating-cast pair strictly narrows within one
signedness, and the cast always succeeds, keeping exactly the low-order
`bitwidth(D)` bits of the two's-complement representation (it equals the
input modulo `2 ^ bitwidth(D)`) and landing in `D`'s range. -/
theorem truncating_keeps_low_bits :
    ∀ pw : Nat, pw = 16 ∨ pw = 32 ∨ pw = 64 →
      ∀ S D : IntTy, (S, D) ∈ truncatingTable pw →
        D.width < S.width ∧ D.signed = S.signed ∧
        ∀ v : Int,
          truncating_cast D v % 2 ^ D.width = v % 2 ^ D.width ∧
          inRange D (truncating_cast D v) := by
  intro pw hpw S D hmem
  rcases hpw with rfl | rfl | rfl <;> fin_cases hmem <;>
    exact ⟨by decide, by decide,
      fun v => ⟨rustAsCast_emod _ v, rustAsCast_inRange (by decide) v⟩⟩

/-- Witness for C9 at the pair `u16 → u8` with the value 300. -/
theorem truncating_keeps_low_bits_witness :
    truncating_cast u8 300 % 2 ^ u8.width = 300 % 2 ^ u8.width ∧
    inRange u8 (truncating_cast u8 300) :=
  (truncating_keeps_low_bits 64 (Or.inr (Or.inr rfl)) u16 u8 (by decide)).2.2
    300

/-- C10: the checked `f64 → f32` narrowing passes NaN and infinities
through unchanged as successes, fails with `Underflow` on finite values
below `f32::MIN`, fails with `Overflow` on finite values above
`f32::MAX` (checked after the lower bound), and succeeds with the
normally converted (`as f32`) value on in-range finite inputs. -/
theorem checked_f64_to_f32_cases :
    checked_cast_f64_f32 .nan = .ok .nan ∧
    (∀ s, checked_cast_f64_f32 (.inf s) = .ok (.inf s)) ∧
    (∀ q : ℚ, q < f32minQ → checked_cast_f64_f32 (.fin q) = .error .Underflow) ∧
    (∀ q : ℚ, ¬(q < f32minQ) → f32maxQ < q →
      checked_cast_f64_f32 (.fin q) = .error .Overflow) ∧
    (∀ q : ℚ, f32minQ ≤ q → q ≤ f32maxQ →
      checked_cast_f64_f32 (.fin q) = .ok (f64_as_f32 (.fin q))) := by
  refine ⟨rfl, fun s => rfl, fun q h => ?_, fun q h1 h2 => ?_,
    fun q h1 h2 => ?_⟩
  · simp only [checked_cast_f64_f32]
    rw [if_pos h]
  · simp only [checked_cast_f64_f32]
    rw [if_neg h1, if_pos h2]
  · simp only [checked_cast_f64_f32]
    rw [if_neg (not_lt.mpr h1), if_neg (not_lt.mpr h2)]

set_option maxRecDepth 40000 in
/-- Witness for C10: `2 ^ 129` overflows and `-(2 ^ 129)` underflows the
`f32` range. -/
theorem checked_f64_to_f32_cases_witness :
    checked_cast_f64_f32 (.fin (((Nat.pow 2 129 : Nat) : Int) : ℚ)) =
      .error .Overflow ∧
    checked_cast_f64_f32 (.fin (-(((Nat.pow 2 129 : Nat) : Int) : ℚ))) =
      .error .Underflow :=
  ⟨checked_f64_to_f32_cases.2.2.2.1 _ (by decide) (by decide),
   checked_f64_to_f32_cases.2.2.1 _ (by decide)⟩
